import Mathlib

/-!
# Verification of the Bezier curve editor core

Shallow embedding of the two Bezier-editor variants of the repository:

* the step-based variant (the `BezierCurve` class: `compute_point`,
  `compute_curve`, `is_close`, `handle_mouse_press`, `handle_mouse_release`,
  `handle_key`, plus the GLFW callback routing in its `main`), and
* the resolution-based variant (`computeBezierCurve`, `screenToGLCoords`,
  `getPointDistance`, `findPointUnderCursor`, `mouse_button_callback`,
  `cursor_position_callback`, with global `controlPoints` / `curvePoints` /
  `dragging` / `draggedIndex` state).

Embedding conventions:

* `float` coordinates are embedded as exact rationals `ℚ`; the C++ single
  precision arithmetic is idealised as exact field arithmetic.
* the comparison `sqrt(dx^2 + dy^2) <= c` of the step-based `is_close` is
  embedded as the equivalent `dx^2 + dy^2 <= c^2` (both sides nonnegative),
  since `ℚ` has no square root.
* the flat interleaved `GLfloat` buffers of the resolution-based variant
  (`x0, y0, x1, y1, ...`, always written and read in pairs) are embedded as
  lists of `Point`; `points[2*i], points[2*i+1]` becomes the `i`-th `Point`.
* vector iterators (`move_iter`) are embedded as a `Nat` index; a write
  through an index that is out of range for the current list — the C++
  out-of-range / invalidated-iterator write, undefined behaviour — is
  modelled by the step function returning `none`.
-/

/-- 2D point (`struct Point { float x, y; }`), coordinates as exact `ℚ`. -/
structure Point where
  x : ℚ
  y : ℚ
deriving DecidableEq, Repr

/-- `Point operator*(float t) const { return { t * x, t * y }; }` -/
def Point.smul (p : Point) (t : ℚ) : Point := ⟨t * p.x, t * p.y⟩

/-- `Point operator+(const Point& p) const { return { x + p.x, y + p.y }; }` -/
def Point.add (p q : Point) : Point := ⟨p.x + q.x, p.y + q.y⟩

instance : HMul Point ℚ Point := ⟨Point.smul⟩

instance : Add Point := ⟨Point.add⟩

@[simp] theorem Point.mul_def (p : Point) (t : ℚ) : p * t = ⟨t * p.x, t * p.y⟩ := rfl

@[simp] theorem Point.add_def (p q : Point) : p + q = ⟨p.x + q.x, p.y + q.y⟩ := rfl

/-! ## Configuration constants of the two variants -/

/-- `constexpr float CURVE_STEP = 0.0001f;` (step-based variant). -/
def CURVE_STEP : ℚ := 1 / 10000

/-- `constexpr float POINT_THRESHOLD = 10.0f;` (step-based variant, device px). -/
def POINT_THRESHOLD : ℚ := 10

/-- `const int CURVE_RESOLUTION = 100;` (resolution-based variant). -/
def CURVE_RESOLUTION : Nat := 100

/-- `const int WINDOW_WIDTH = 800;` (resolution-based variant). -/
def WINDOW_WIDTH : ℚ := 800

/-- `const int WINDOW_HEIGHT = 600;` (resolution-based variant). -/
def WINDOW_HEIGHT : ℚ := 600

/-! ## De Casteljau core

Both variants run the identical in-place De Casteljau collapse on a working
copy `temp` of the control points: for `degree` rounds, round `r` overwrites
`temp[i] := temp[i]*(1-t) + temp[i+1]*t` for increasing `i`, so each update
reads the not-yet-overwritten neighbour of the current round.  Functionally,
one round maps the working list to the list of interpolants of its adjacent
pairs (one element shorter); entries beyond the live prefix are stale in the
C++ buffer and never read again, so dropping them is equivalent. -/

/-- One De Casteljau round: `temp[i] = temp[i] * (1 - t) + temp[i + 1] * t`
for all adjacent pairs of the live prefix. -/
def lerpRound (t : ℚ) : List Point → List Point
  | p :: q :: rest => (p * (1 - t) + q * t) :: lerpRound t (q :: rest)
  | _ => []

/-- `k` De Casteljau rounds (the outer `for (k = 1; k < size; ++k)` /
`for (r = 1; r <= n; ++r)` loop, run `k` times). -/
def collapseRounds (t : ℚ) : Nat → List Point → List Point
  | 0, l => l
  | k + 1, l => collapseRounds t k (lerpRound t l)

/-- `BezierCurve::compute_point(float t)`: copy the control points, collapse
`size - 1` rounds, and push `temp[0]` if the working vector is nonempty.
(The resolution-based variant's inner loops are the same collapse with
`n = size/2 - 1` rounds on the paired buffer, pushing `temp[0], temp[1]`,
i.e. the same head point.)  The returned list is what gets appended to the
curve sample: empty or a single point. -/
def compute_point (ps : List Point) (t : ℚ) : List Point :=
  match (collapseRounds t (ps.length - 1) ps).head? with
  | some p => [p]
  | none => []

/-- The `for (float t = 0; t <= 1.0f; t += CURVE_STEP)` sampling loop of
`BezierCurve::compute_curve`, parameterised by the step `s`.  Over exact
rationals the accumulated parameter after `k` increments is exactly `k * s`.
The `0 < s` conjunct is the termination guard of the embedding; the source's
step is the positive constant `CURVE_STEP`. -/
def curveLoop (ps : List Point) (s : ℚ) (t : ℚ) : List Point :=
  if h : 0 < s ∧ t ≤ 1 then
    compute_point ps t ++ curveLoop ps s (t + s)
  else []
termination_by Nat.floor ((1 - t) / s + 1)
decreasing_by
  obtain ⟨hs, ht⟩ := h
  have hx : (0 : ℚ) ≤ (1 - t) / s := div_nonneg (by linarith) hs.le
  have harg : (1 - (t + s)) / s + 1 = (1 - t) / s := by
    field_simp
    ring
  rw [harg, Nat.floor_add_one hx]
  exact Nat.lt_succ_self _

/-- `BezierCurve::compute_curve` with an arbitrary step: clear the sample,
then resample if at least 2 control points exist. -/
def compute_curve_step (s : ℚ) (ps : List Point) : List Point :=
  if 2 ≤ ps.length then curveLoop ps s 0 else []

/-- `BezierCurve::compute_curve()` — the program's fixed step `CURVE_STEP`. -/
def compute_curve (ps : List Point) : List Point :=
  compute_curve_step CURVE_STEP ps

/-- `computeBezierCurve` of the resolution-based variant, parameterised by the
resolution `R`: `n = points.size() / 2 - 1` (an `int`, so `-1` on an empty
buffer), empty result if `n < 1`, else one De Casteljau sample at
`t = i / R` for each `i = 0, ..., R`. -/
def computeBezierCurveR (R : Nat) (ps : List Point) : List Point :=
  let n : Int := (ps.length : Int) - 1
  if n < 1 then []
  else (List.range (R + 1)).flatMap (fun i => compute_point ps ((i : ℚ) / (R : ℚ)))

/-- `computeBezierCurve` at the program's fixed `CURVE_RESOLUTION`. -/
def computeBezierCurve (ps : List Point) : List Point :=
  computeBezierCurveR CURVE_RESOLUTION ps

/-! ## Hit testing -/

/-- Squared distance used by `BezierCurve::is_close` (the source computes
`sqrt(pow(dx,2) + pow(dy,2))` and compares with `POINT_THRESHOLD`). -/
def dist2 (p1 p2 : Point) : ℚ :=
  (p1.x - p2.x) * (p1.x - p2.x) + (p1.y - p2.y) * (p1.y - p2.y)

/-- `BezierCurve::is_close(Point p1, Point p2)`:
`sqrt(dx² + dy²) <= POINT_THRESHOLD`, embedded squared (equivalent over ℝ). -/
def is_close (p1 p2 : Point) : Bool :=
  decide (dist2 p1 p2 ≤ POINT_THRESHOLD * POINT_THRESHOLD)

/-- `getPointDistance(pointIndex, x, y)` of the resolution-based variant:
`dx*dx + dy*dy` — the squared distance of one control point to `(x, y)`. -/
def getPointDistance (p : Point) (x y : ℚ) : ℚ :=
  (p.x - x) * (p.x - x) + (p.y - y) * (p.y - y)

/-- First index (counting from `i`) whose point satisfies `pred` — the shape
of both variants' linear hit-test scans. -/
def findIdxAux (pred : Point → Bool) : List Point → Nat → Option Nat
  | [], _ => none
  | p :: rest, i => if pred p then some i else findIdxAux pred rest (i + 1)

/-- The iterator scan of `BezierCurve::handle_mouse_press`: the first control
point `is_close` to the click, as an index. -/
def firstCloseIdx (ps : List Point) (q : Point) : Option Nat :=
  findIdxAux (fun p => is_close p q) ps 0

/-- `findPointUnderCursor(x, y, threshold)` of the resolution-based variant:
first index with `getPointDistance(i, x, y) < threshold * threshold`,
`-1` if none.  The callbacks call it with the default `threshold = 0.03`. -/
def findPointUnderCursor (ps : List Point) (x y : ℚ) (threshold : ℚ) : Int :=
  match findIdxAux (fun p => decide (getPointDistance p x y < threshold * threshold)) ps 0 with
  | some i => (i : Int)
  | none => -1

/-- `screenToGLCoords(x, y, outX, outY)`:
`outX = 2x/WIDTH - 1`, `outY = 1 - 2y/HEIGHT`. -/
def screenToGLCoords (x y : ℚ) : Point :=
  ⟨2 * x / WINDOW_WIDTH - 1, 1 - 2 * y / WINDOW_HEIGHT⟩

/-! ## Step-based variant: the `BezierCurve` class and its callbacks -/

/-- GLFW mouse buttons as seen by the handlers (`GLFW_MOUSE_BUTTON_LEFT`,
`GLFW_MOUSE_BUTTON_RIGHT`, anything else). -/
inductive MouseButton where
  | left
  | right
  | other
deriving DecidableEq, Repr

/-- Keys the key handler distinguishes (`GLFW_KEY_DELETE`, `GLFW_KEY_ENTER`,
`GLFW_KEY_SPACE`, anything else). -/
inductive Key where
  | del
  | enter
  | space
  | other
deriving DecidableEq, Repr

/-- `GLFW_PRESS` / `GLFW_RELEASE` for key actions. -/
inductive KeyAction where
  | press
  | release
deriving DecidableEq, Repr

/-- The private state of the `BezierCurve` class.  `move_iter` is the
source's `std::vector<Point>::iterator` embedded as a position index; it is
only meaningful while `is_moving` (the source leaves it default-constructed
until the first grab, embedded as `0`). -/
structure BezierState where
  control_points : List Point
  curve_points : List Point
  moving_points : List Point
  move_iter : Nat
  is_moving : Bool
  is_deleting : Bool
deriving DecidableEq, Repr

/-- `BezierCurve::handle_mouse_press(float x, float y, int button)`:
left press while not moving grabs the first close point (recording the click
as the candidate in `moving_points`, no list mutation); right press erases
the first close point — with no minimum-count floor — and recomputes the
curve; anything else is a no-op. -/
def handle_mouse_press (st : BezierState) (x y : ℚ) (button : MouseButton) :
    BezierState :=
  if button = MouseButton.left ∧ st.is_moving = false then
    match firstCloseIdx st.control_points ⟨x, y⟩ with
    | some i =>
        { st with is_moving := true, move_iter := i,
                  moving_points := st.moving_points ++ [⟨x, y⟩] }
    | none => st
  else if button = MouseButton.right then
    match firstCloseIdx st.control_points ⟨x, y⟩ with
    | some i =>
        let cps := st.control_points.eraseIdx i
        { st with control_points := cps, curve_points := compute_curve cps }
    | none => st
  else st

/-- `BezierCurve::handle_mouse_release(float x, float y, int button)`:
on a left release, if moving, write the release position through `move_iter`
(`move_iter->x = x; move_iter->y = y`) — a write through an iterator that an
intervening `erase` may have invalidated; the out-of-range case is modelled
as `none` — else append a new control point; either way recompute the
curve. -/
def handle_mouse_release (st : BezierState) (x y : ℚ) (button : MouseButton) :
    Option BezierState :=
  if button = MouseButton.left then
    if st.is_moving then
      if st.move_iter < st.control_points.length then
        let cps := st.control_points.set st.move_iter ⟨x, y⟩
        some { st with control_points := cps, is_moving := false,
                       moving_points := [], curve_points := compute_curve cps }
      else none
    else
      let cps := st.control_points ++ [⟨x, y⟩]
      some { st with control_points := cps, curve_points := compute_curve cps }
  else some st

/-- `BezierCurve::handle_key(int key, int action)`: DELETE toggles
`is_deleting` with the action; ENTER or SPACE on press clears everything. -/
def handle_key (st : BezierState) (key : Key) (action : KeyAction) :
    BezierState :=
  if key = Key.del then
    { st with is_deleting := decide (action = KeyAction.press) }
  else if key = Key.enter ∧ action = KeyAction.press then
    { st with control_points := [], moving_points := [], curve_points := [],
              is_moving := false, is_deleting := false }
  else if key = Key.space ∧ action = KeyAction.press then
    { st with control_points := [], moving_points := [], curve_points := [],
              is_moving := false, is_deleting := false }
  else st

/-- Input events as routed by the GLFW lambdas in the step-based `main`:
presses go to `handle_mouse_press`; only left releases reach
`handle_mouse_release`; cursor motion is forwarded to
`handle_mouse_press(x, y, LEFT)` exactly when the left button is held and
`is_moving_state()`; keys go to `handle_key`. -/
inductive EventA where
  | press (x y : ℚ) (button : MouseButton)
  | releaseLeft (x y : ℚ)
  | move (x y : ℚ) (leftHeld : Bool)
  | key (k : Key) (a : KeyAction)

/-- One event step of the step-based variant; `none` models the
undefined-behaviour write of `handle_mouse_release`. -/
def stepA (st : BezierState) : EventA → Option BezierState
  | EventA.press x y b => some (handle_mouse_press st x y b)
  | EventA.releaseLeft x y => handle_mouse_release st x y MouseButton.left
  | EventA.move x y held =>
      if held ∧ st.is_moving then
        some (handle_mouse_press st x y MouseButton.left)
      else some st
  | EventA.key k a => some (handle_key st k a)

/-- Initial `BezierCurve` state: all vectors empty, flags false. -/
def initA : BezierState :=
  { control_points := [], curve_points := [], moving_points := [],
    move_iter := 0, is_moving := false, is_deleting := false }

/-- Run a list of events through the step-based variant. -/
def runA (st : BezierState) : List EventA → Option BezierState
  | [] => some st
  | e :: evs =>
      match stepA st e with
      | some st2 => runA st2 evs
      | none => none

/-- States of the step-based variant reachable from `initA` through the
public event interface. -/
inductive ReachA : BezierState → Prop where
  | init : ReachA initA
  | step {st st2 : BezierState} {e : EventA} :
      ReachA st → stepA st e = some st2 → ReachA st2

/-! ## Resolution-based variant: global state and GLFW callbacks -/

/-- The module-level mutable state of the resolution-based variant. -/
structure EditorState where
  controlPoints : List Point
  curvePoints : List Point
  dragging : Bool
  draggedIndex : Int
deriving DecidableEq, Repr

/-- Events delivered to `mouse_button_callback` / `cursor_position_callback`:
a press of some button at the (device-space) cursor position, a release of
some button, or cursor motion. -/
inductive EventB where
  | press (x y : ℚ) (button : MouseButton)
  | release (button : MouseButton)
  | move (x y : ℚ)

/-- One event step of the resolution-based variant.

`press`: converts the cursor to GL coordinates; a left press grabs the point
under the cursor (setting `dragging` / `draggedIndex`) or else appends a new
point and calls `updateBuffers` (`curvePoints = computeBezierCurve(...)`);
a right press on a point deletes it only when more than 2 points remain.
`release` of any button clears `dragging` and resets `draggedIndex` to `-1`.
`move` while `dragging && draggedIndex != -1` writes the converted cursor
position into `controlPoints[draggedIndex]` and recomputes — the write is
out of range (undefined behaviour, modelled `none`) when the stale index no
longer refers to a list entry. -/
def stepB (st : EditorState) : EventB → Option EditorState
  | EventB.press x y b =>
      let m := screenToGLCoords x y
      if b = MouseButton.left then
        let idx := findPointUnderCursor st.controlPoints m.x m.y (3 / 100)
        if idx ≠ -1 then
          some { st with dragging := true, draggedIndex := idx }
        else
          let cps := st.controlPoints ++ [m]
          some { st with controlPoints := cps,
                         curvePoints := computeBezierCurve cps }
      else if b = MouseButton.right ∧ st.controlPoints ≠ [] then
        let idx := findPointUnderCursor st.controlPoints m.x m.y (3 / 100)
        if idx ≠ -1 then
          if 2 < st.controlPoints.length then
            let cps := st.controlPoints.eraseIdx idx.toNat
            some { st with controlPoints := cps,
                           curvePoints := computeBezierCurve cps }
          else some st
        else some st
      else some st
  | EventB.release _ =>
      some { st with dragging := false, draggedIndex := -1 }
  | EventB.move x y =>
      let m := screenToGLCoords x y
      if st.dragging ∧ st.draggedIndex ≠ -1 then
        if 0 ≤ st.draggedIndex ∧ st.draggedIndex.toNat < st.controlPoints.length then
          let cps := st.controlPoints.set st.draggedIndex.toNat m
          some { st with controlPoints := cps,
                         curvePoints := computeBezierCurve cps }
        else none
      else some st

/-- The seeded initial control points of the resolution-based `main`. -/
def seedPoints : List Point :=
  [⟨-4/5, -4/5⟩, ⟨-2/5, 9/10⟩, ⟨2/5, -9/10⟩, ⟨4/5, 4/5⟩]

/-- Initial state of the resolution-based variant: the seed points with
`updateBuffers()` already run once. -/
def initB : EditorState :=
  { controlPoints := seedPoints, curvePoints := computeBezierCurve seedPoints,
    dragging := false, draggedIndex := -1 }

/-- Run a list of events through the resolution-based variant. -/
def runB (st : EditorState) : List EventB → Option EditorState
  | [] => some st
  | e :: evs =>
      match stepB st e with
      | some st2 => runB st2 evs
      | none => none

/-- States of the resolution-based variant reachable from `initB` through
the callback interface. -/
inductive ReachB : EditorState → Prop where
  | init : ReachB initB
  | step {st st2 : EditorState} {e : EventB} :
      ReachB st → stepB st e = some st2 → ReachB st2

/-! ## Auxiliary facts about the De Casteljau core -/

theorem lerpRound_length (t : ℚ) (l : List Point) :
    (lerpRound t l).length = l.length - 1 := by
  induction l with
  | nil => simp [lerpRound]
  | cons p rest ih =>
      cases rest with
      | nil => simp [lerpRound]
      | cons q rest2 =>
          simp only [lerpRound, List.length_cons] at ih ⊢
          omega

theorem collapseRounds_length (t : ℚ) (k : Nat) (l : List Point) :
    (collapseRounds t k l).length = l.length - k := by
  induction k generalizing l with
  | zero => simp [collapseRounds]
  | succ k ih =>
      simp only [collapseRounds]
      rw [ih, lerpRound_length]
      omega

theorem compute_point_singleton (ps : List Point) (t : ℚ) (h : ps ≠ []) :
    ∃ p, compute_point ps t = [p] := by
  have hlen : (collapseRounds t (ps.length - 1) ps).length = 1 := by
    rw [collapseRounds_length]
    have : 1 ≤ ps.length := List.length_pos.mpr h
    omega
  obtain ⟨p, hp⟩ := List.length_eq_one.mp hlen
  exact ⟨p, by simp [compute_point, hp]⟩

theorem compute_point_length (ps : List Point) (t : ℚ) (h : ps ≠ []) :
    (compute_point ps t).length = 1 := by
  obtain ⟨p, hp⟩ := compute_point_singleton ps t h
  simp [hp]

theorem lerpRound_zero_head (l : List Point) (h : 2 ≤ l.length) :
    (lerpRound 0 l).head? = l.head? := by
  match l, h with
  | p :: q :: rest, _ =>
      simp [lerpRound, Point.mk.injEq]

theorem collapseRounds_zero_head (k : Nat) (l : List Point) (h : k < l.length) :
    (collapseRounds 0 k l).head? = l.head? := by
  induction k generalizing l with
  | zero => simp [collapseRounds]
  | succ k ih =>
      simp only [collapseRounds]
      rw [ih, lerpRound_zero_head]
      · omega
      · rw [lerpRound_length]; omega

theorem lerpRound_one (l : List Point) : lerpRound 1 l = l.tail := by
  induction l with
  | nil => simp [lerpRound]
  | cons p rest ih =>
      cases rest with
      | nil => simp [lerpRound]
      | cons q rest2 =>
          simp only [lerpRound, List.tail_cons] at ih ⊢
          rw [ih]
          simp [Point.mk.injEq]

theorem collapseRounds_one (k : Nat) (l : List Point) :
    collapseRounds 1 k l = l.drop k := by
  induction k generalizing l with
  | zero => simp [collapseRounds]
  | succ k ih =>
      simp only [collapseRounds]
      rw [ih, lerpRound_one, ← List.drop_one, List.drop_drop]
      congr 1
      omega

/-- At `t = 0` the De Casteljau sample is the first control point. -/
theorem compute_point_zero (ps : List Point) :
    compute_point ps 0 = ps.head?.toList := by
  cases ps with
  | nil => simp [compute_point, collapseRounds]
  | cons p rest =>
      rw [compute_point, collapseRounds_zero_head]
      · simp
      · simp

/-- At `t = 1` the De Casteljau sample is the last control point. -/
theorem compute_point_one (ps : List Point) :
    compute_point ps 1 = ps.getLast?.toList := by
  rw [compute_point, collapseRounds_one, List.head?_drop,
    ← List.getLast?_eq_getElem?]
  cases h : ps.getLast? with
  | none => simp
  | some p => simp

/-! ## Auxiliary facts about the sampling loops -/

theorem curveLoop_eq (ps : List Point) (s t : ℚ) :
    curveLoop ps s t =
      if 0 < s ∧ t ≤ 1 then compute_point ps t ++ curveLoop ps s (t + s)
      else [] := by
  rw [curveLoop]
  split <;> rfl

theorem curveLoop_length (ps : List Point) (s : ℚ) (hs : 0 < s)
    (hps : ps ≠ []) :
    ∀ (k : Nat) (t : ℚ), t ≤ 1 → Nat.floor ((1 - t) / s) = k →
      (curveLoop ps s t).length = k + 1 := by
  intro k
  induction k with
  | zero =>
      intro t ht hfl
      rw [curveLoop_eq, if_pos ⟨hs, ht⟩]
      have hstop : ¬ (t + s ≤ 1) := by
        by_contra hc
        have h1 : (1 : ℚ) ≤ (1 - t) / s := by
          rw [le_div_iff₀ hs]
          linarith
        have := Nat.floor_le_floor (α := ℚ) h1
        simp [Nat.floor_one, hfl] at this
      rw [curveLoop_eq, if_neg (by tauto)]
      simp [compute_point_length ps t hps]
  | succ k ih =>
      intro t ht hfl
      have hx : (0 : ℚ) ≤ (1 - t) / s := div_nonneg (by linarith) hs.le
      have h1 : (1 : ℚ) ≤ (1 - t) / s := by
        by_contra hc
        push_neg at hc
        have : Nat.floor ((1 - t) / s) = 0 := Nat.floor_eq_zero.mpr hc
        omega
      have hts : t + s ≤ 1 := by
        rw [le_div_iff₀ hs] at h1
        linarith
      have hfl2 : Nat.floor ((1 - (t + s)) / s) = k := by
        have harg : (1 - (t + s)) / s = (1 - t) / s - 1 := by
          field_simp
          ring
        have hsub : (0 : ℚ) ≤ (1 - t) / s - 1 := by linarith
        have : Nat.floor (((1 - t) / s - 1) + 1) = Nat.floor ((1 - t) / s - 1) + 1 :=
          Nat.floor_add_one hsub
        simp only [sub_add_cancel] at this
        rw [harg]
        omega
      rw [curveLoop_eq, if_pos ⟨hs, ht⟩, List.length_append,
        compute_point_length ps t hps, ih (t + s) hts hfl2]
      omega

theorem curveLoop_head (ps : List Point) (s : ℚ) (hs : 0 < s)
    (hps : ps ≠ []) : (curveLoop ps s 0).head? = ps.head? := by
  rw [curveLoop_eq, if_pos ⟨hs, by norm_num⟩, compute_point_zero]
  cases ps with
  | nil => exact absurd rfl hps
  | cons p rest => simp

theorem curveLoop_getLast (ps : List Point) (s : ℚ) (hs : 0 < s)
    (hps : ps ≠ []) :
    ∀ (k : Nat) (t : ℚ), 1 - t = (k : ℚ) * s →
      (curveLoop ps s t).getLast? = ps.getLast? := by
  intro k
  induction k with
  | zero =>
      intro t ht
      have ht1 : t = 1 := by push_cast at ht; linarith
      subst ht1
      rw [curveLoop_eq, if_pos ⟨hs, le_refl 1⟩]
      rw [curveLoop_eq, if_neg (by push_neg; intro; linarith)]
      rw [List.append_nil, compute_point_one]
      cases h : ps.getLast? with
      | none => simp [List.getLast?_eq_none_iff.mp h] at hps
      | some p => simp
  | succ k ih =>
      intro t ht
      have hts : 1 - (t + s) = (k : ℚ) * s := by push_cast at ht ⊢; linarith
      have ht1 : t ≤ 1 := by
        push_cast at ht
        nlinarith [mul_nonneg (by positivity : (0:ℚ) ≤ (k : ℚ)) hs.le]
      rw [curveLoop_eq, if_pos ⟨hs, ht1⟩]
      have htail := ih (t + s) hts
      have hne : curveLoop ps s (t + s) ≠ [] := by
        intro hnil
        rw [hnil] at htail
        simp only [List.getLast?_nil] at htail
        exact hps (List.getLast?_eq_none_iff.mp htail.symm)
      rw [List.getLast?_append_of_ne_nil _ hne, htail]

theorem flatMap_length_of_singletons (l : List Nat) (g : Nat → List Point)
    (h : ∀ i ∈ l, (g i).length = 1) : (l.flatMap g).length = l.length := by
  induction l with
  | nil => simp
  | cons a rest ih =>
      simp only [List.flatMap_cons, List.length_append, List.length_cons]
      rw [h a (by simp), ih (fun i hi => h i (by simp [hi]))]
      omega

/-- The `n < 1` guard of `computeBezierCurveR` is exactly "fewer than 2
points". -/
theorem computeBezierCurveR_guard (ps : List Point) :
    ((ps.length : Int) - 1 < 1) ↔ ps.length < 2 := by
  omega

theorem computeBezierCurveR_of_lt (R : Nat) (ps : List Point)
    (h : ps.length < 2) : computeBezierCurveR R ps = [] := by
  simp only [computeBezierCurveR]
  rw [if_pos]
  omega

theorem computeBezierCurveR_of_le (R : Nat) (ps : List Point)
    (h : 2 ≤ ps.length) :
    computeBezierCurveR R ps =
      (List.range (R + 1)).flatMap
        (fun i => compute_point ps ((i : ℚ) / (R : ℚ))) := by
  simp only [computeBezierCurveR]
  rw [if_neg]
  omega

theorem computeBezierCurveR_length (R : Nat) (ps : List Point)
    (h : 2 ≤ ps.length) : (computeBezierCurveR R ps).length = R + 1 := by
  have hps : ps ≠ [] := by
    intro hnil
    rw [hnil] at h
    simp at h
  rw [computeBezierCurveR_of_le R ps h,
    flatMap_length_of_singletons _ _
      (fun i _ => compute_point_length ps _ hps),
    List.length_range]

theorem computeBezierCurveR_head (R : Nat) (ps : List Point)
    (h : 2 ≤ ps.length) : (computeBezierCurveR R ps).head? = ps.head? := by
  rw [computeBezierCurveR_of_le R ps h]
  cases ps with
  | nil => simp at h
  | cons p rest =>
      rw [List.range_succ_eq_map]
      simp only [List.flatMap_cons]
      rw [Nat.cast_zero, zero_div, compute_point_zero]
      simp

theorem computeBezierCurveR_getLast (R : Nat) (ps : List Point)
    (hR : 1 ≤ R) (h : 2 ≤ ps.length) :
    (computeBezierCurveR R ps).getLast? = ps.getLast? := by
  have hps : ps ≠ [] := by
    intro hnil
    rw [hnil] at h
    simp at h
  rw [computeBezierCurveR_of_le R ps h]
  rw [show R + 1 = R.succ from rfl, List.range_succ, List.flatMap_append]
  have hRQ : ((R : ℚ) / (R : ℚ)) = 1 := by
    rw [div_self]
    have : 0 < R := by omega
    exact_mod_cast this.ne.symm
  simp only [List.flatMap_cons, List.flatMap_nil, List.append_nil]
  rw [hRQ, compute_point_one]
  cases hlast : ps.getLast? with
  | none => exact absurd (List.getLast?_eq_none_iff.mp hlast) hps
  | some p =>
      simp only [Option.toList_some]
      rw [List.getLast?_append_of_ne_nil _ (by simp)]
      simp

theorem compute_curve_step_of_lt (s : ℚ) (ps : List Point)
    (h : ps.length < 2) : compute_curve_step s ps = [] := by
  rw [compute_curve_step, if_neg]
  omega

theorem compute_curve_step_length (s : ℚ) (ps : List Point) (hs : 0 < s)
    (h : 2 ≤ ps.length) :
    (compute_curve_step s ps).length = Nat.floor (1 / s) + 1 := by
  have hps : ps ≠ [] := by
    intro hnil
    rw [hnil] at h
    simp at h
  rw [compute_curve_step, if_pos h]
  have := curveLoop_length ps s hs hps (Nat.floor (1 / s)) 0 (by norm_num)
    (by norm_num)
  exact this

theorem compute_curve_step_head (s : ℚ) (ps : List Point) (hs : 0 < s)
    (h : 2 ≤ ps.length) : (compute_curve_step s ps).head? = ps.head? := by
  have hps : ps ≠ [] := by
    intro hnil
    rw [hnil] at h
    simp at h
  rw [compute_curve_step, if_pos h]
  exact curveLoop_head ps s hs hps

/-- Completing at `t = 1`: the program step `CURVE_STEP = 1/10000` divides 1
exactly (`1 - 0 = 10000 * CURVE_STEP`), so the final sample is at `t = 1`. -/
theorem compute_curve_getLast (ps : List Point) (h : 2 ≤ ps.length) :
    (compute_curve ps).getLast? = ps.getLast? := by
  have hps : ps ≠ [] := by
    intro hnil
    rw [hnil] at h
    simp at h
  rw [compute_curve, compute_curve_step, if_pos h]
  exact curveLoop_getLast ps CURVE_STEP (by norm_num [CURVE_STEP]) hps
    10000 0 (by norm_num [CURVE_STEP])

/-! ## Characterisation of the hit-test scans -/

theorem findIdxAux_none_iff (pred : Point → Bool) (l : List Point) (i : Nat) :
    findIdxAux pred l i = none ↔ ∀ p ∈ l, pred p = false := by
  induction l generalizing i with
  | nil => simp [findIdxAux]
  | cons p rest ih =>
      by_cases hp : pred p
      · simp [findIdxAux, hp]
      · simp only [findIdxAux, if_neg hp, ih, List.mem_cons]
        constructor
        · intro hall q hq
          cases hq with
          | inl hq => simp [hq, Bool.eq_false_iff.mpr hp]
          | inr hq => exact hall q hq
        · intro hall q hq
          exact hall q (Or.inr hq)

theorem findIdxAux_some (pred : Point → Bool) (l : List Point) (i j : Nat)
    (h : findIdxAux pred l i = some j) :
    ∃ d, j = i + d ∧ (∃ p, l.get? d = some p ∧ pred p = true) ∧
      ∀ m < d, ∀ q, l.get? m = some q → pred q = false := by
  induction l generalizing i j with
  | nil => simp [findIdxAux] at h
  | cons p rest ih =>
      by_cases hp : pred p
      · rw [findIdxAux, if_pos hp] at h
        obtain rfl : i = j := Option.some.inj h
        refine ⟨0, by omega, ⟨p, by simp, hp⟩, ?_⟩
        intro m hm
        omega
      · rw [findIdxAux, if_neg hp] at h
        obtain ⟨d, hd, ⟨q, hq, hqp⟩, hmin⟩ := ih (i + 1) j h
        refine ⟨d + 1, by omega, ⟨q, by simpa using hq, hqp⟩, ?_⟩
        intro m hm r hr
        cases m with
        | zero =>
            simp only [List.get?_cons_zero, Option.some.injEq] at hr
            subst hr
            exact Bool.eq_false_iff.mpr hp
        | succ m =>
            exact hmin m (by omega) r (by simpa using hr)

/-! ## The curve-sample invariant -/

@[simp] theorem compute_curve_nil : compute_curve [] = [] := by
  simp [compute_curve, compute_curve_step]

/-- Invariant of the step-based variant: the stored curve sample is the
evaluation of the current control points. -/
def curveInvA (st : BezierState) : Prop :=
  st.curve_points = compute_curve st.control_points

/-- Invariant of the resolution-based variant. -/
def curveInvB (st : EditorState) : Prop :=
  st.curvePoints = computeBezierCurve st.controlPoints

theorem curveInvA_press (st : BezierState) (x y : ℚ) (b : MouseButton)
    (h : curveInvA st) : curveInvA (handle_mouse_press st x y b) := by
  unfold handle_mouse_press
  split
  · split <;> exact h
  · split
    · split
      · exact rfl
      · exact h
    · exact h

theorem curveInvA_release (st st2 : BezierState) (x y : ℚ) (b : MouseButton)
    (h : curveInvA st) (hr : handle_mouse_release st x y b = some st2) :
    curveInvA st2 := by
  unfold handle_mouse_release at hr
  split at hr
  · split at hr
    · split at hr
      · cases hr
        exact rfl
      · cases hr
    · cases hr
      exact rfl
  · cases hr
    exact h

theorem curveInvA_key (st : BezierState) (k : Key) (a : KeyAction)
    (h : curveInvA st) : curveInvA (handle_key st k a) := by
  unfold handle_key
  split
  · exact h
  · split
    · exact compute_curve_nil.symm
    · split
      · exact compute_curve_nil.symm
      · exact h

theorem curveInvA_step (st st2 : BezierState) (e : EventA)
    (h : curveInvA st) (hs : stepA st e = some st2) : curveInvA st2 := by
  cases e with
  | press x y b =>
      cases hs
      exact curveInvA_press st x y b h
  | releaseLeft x y =>
      exact curveInvA_release st st2 x y MouseButton.left h hs
  | move x y held =>
      rw [stepA] at hs
      split at hs <;> cases hs
      · exact curveInvA_press st x y MouseButton.left h
      · exact h
  | key k a =>
      cases hs
      exact curveInvA_key st k a h

theorem curveInvA_reach (st : BezierState) (h : ReachA st) : curveInvA st := by
  induction h with
  | init => exact compute_curve_nil.symm
  | step hr hs ih => exact curveInvA_step _ _ _ ih hs

theorem curveInvB_step (st st2 : EditorState) (e : EventB)
    (h : curveInvB st) (hs : stepB st e = some st2) : curveInvB st2 := by
  cases e with
  | press x y b =>
      simp only [stepB] at hs
      split at hs
      · split at hs
        · cases hs
          exact h
        · cases hs
          exact rfl
      · split at hs
        · split at hs
          · split at hs
            · cases hs
              exact rfl
            · cases hs
              exact h
          · cases hs
            exact h
        · cases hs
          exact h
  | release b =>
      simp only [stepB, Option.some.injEq] at hs
      subst hs
      exact h
  | move x y =>
      simp only [stepB] at hs
      split at hs
      · split at hs
        · cases hs
          exact rfl
        · cases hs
      · cases hs
        exact h

theorem curveInvB_reach (st : EditorState) (h : ReachB st) : curveInvB st := by
  induction h with
  | init => exact rfl
  | step hr hs ih => exact curveInvB_step _ _ _ ih hs

/-! ## Helper simp facts for evaluating concrete event runs -/

@[simp] theorem MouseButton.right_ne_left :
    ¬ (MouseButton.right = MouseButton.left) := by
  intro h
  cases h

@[simp] theorem MouseButton.left_ne_right :
    ¬ (MouseButton.left = MouseButton.right) := by
  intro h
  cases h

/-! ## The claims -/

/-- Claim C1: for every state reachable through the public operations (and
the initial state), the stored curve sample is the De Casteljau evaluation of
the current control-point list at the configured step (step-based variant) or
resolution (resolution-based variant), and is empty when fewer than 2 control
points exist. -/
theorem C1_curve_sample_invariant :
    (∀ st : BezierState, ReachA st →
      (2 ≤ st.control_points.length →
        st.curve_points = curveLoop st.control_points CURVE_STEP 0) ∧
      (st.control_points.length < 2 → st.curve_points = [])) ∧
    (∀ st : EditorState, ReachB st →
      (2 ≤ st.controlPoints.length →
        st.curvePoints = (List.range (CURVE_RESOLUTION + 1)).flatMap
          (fun i => compute_point st.controlPoints
            ((i : ℚ) / (CURVE_RESOLUTION : ℚ)))) ∧
      (st.controlPoints.length < 2 → st.curvePoints = [])) := by
  constructor
  · intro st hst
    have h := curveInvA_reach st hst
    constructor
    · intro h2
      rw [h, compute_curve, compute_curve_step, if_pos h2]
    · intro h2
      rw [h, compute_curve, compute_curve_step_of_lt _ _ h2]
  · intro st hst
    have h := curveInvB_reach st hst
    constructor
    · intro h2
      rw [h, computeBezierCurve, computeBezierCurveR_of_le _ _ h2]
    · intro h2
      rw [h, computeBezierCurve, computeBezierCurveR_of_lt _ _ h2]

/-- Witness for C1 at the two initial states (both reachable): the step-based
editor starts empty with an empty sample; the resolution-based editor starts
with the 4 seeded points and the matching sample. -/
theorem C1_witness :
    (ReachA initA ∧ initA.curve_points = []) ∧
    (ReachB initB ∧ 2 ≤ initB.controlPoints.length ∧
      initB.curvePoints = (List.range (CURVE_RESOLUTION + 1)).flatMap
        (fun i => compute_point initB.controlPoints
          ((i : ℚ) / (CURVE_RESOLUTION : ℚ)))) := by
  refine ⟨⟨ReachA.init, ?_⟩, ReachB.init, ?_, ?_⟩
  · exact (C1_curve_sample_invariant.1 initA ReachA.init).2 (by simp [initA])
  · simp [initB, seedPoints]
  · exact (C1_curve_sample_invariant.2 initB ReachB.init).1
      (by simp [initB, seedPoints])

/-- Claim C2 (code bug): the code does NOT clear or re-validate the drag
state on deletion.  In the step-based variant: add one point (left release at
`(0,0)`), grab it (left press), right-click delete it — `handle_mouse_press`
erases the point and leaves `is_moving` / `move_iter` untouched — then the
next left release writes through the stale handle: `move_iter = 0` but the
list is empty, an out-of-range (invalidated-iterator) write, modelled as
`none`. -/
theorem C2_stale_drag_out_of_range :
    runA initA
      [EventA.releaseLeft 0 0, EventA.press 0 0 MouseButton.left,
       EventA.press 0 0 MouseButton.right, EventA.releaseLeft 5 5] = none := by
  norm_num [runA, stepA, handle_mouse_press, handle_mouse_release, initA,
    firstCloseIdx, findIdxAux, is_close, dist2, POINT_THRESHOLD,
    compute_curve, compute_curve_step]

/-- Claim C3: for 0 or 1 control points, both evaluators return the empty
sequence (and, being total functions, signal no error). -/
theorem C3_small_lists_empty (ps : List Point) (h : ps.length ≤ 1) :
    computeBezierCurve ps = [] ∧ compute_curve ps = [] := by
  constructor
  · rw [computeBezierCurve]
    exact computeBezierCurveR_of_lt _ _ (by omega)
  · rw [compute_curve]
    exact compute_curve_step_of_lt _ _ (by omega)

/-- Witness for C3 at the empty list and a singleton. -/
theorem C3_witness :
    (computeBezierCurve [] = [] ∧ compute_curve [] = []) ∧
    (computeBezierCurve [⟨1, 2⟩] = [] ∧ compute_curve [⟨1, 2⟩] = []) :=
  ⟨C3_small_lists_empty [] (by simp),
   C3_small_lists_empty [⟨1, 2⟩] (by simp)⟩

/-- Claim C4: with at least 2 control points, evaluation at resolution `R`
yields exactly `R + 1` samples, and evaluation at a (positive) step `s`
yields exactly `⌊1/s⌋ + 1` samples. -/
theorem C4_sample_counts (ps : List Point) (R : Nat) (s : ℚ)
    (hps : 2 ≤ ps.length) (hs : 0 < s) :
    (computeBezierCurveR R ps).length = R + 1 ∧
    (compute_curve_step s ps).length = Nat.floor (1 / s) + 1 :=
  ⟨computeBezierCurveR_length R ps hps, compute_curve_step_length s ps hs hps⟩

/-- Witness for C4: two points, resolution 2 gives 3 samples; step 1/2 gives
`⌊2⌋ + 1 = 3` samples. -/
theorem C4_witness :
    (computeBezierCurveR 2 [⟨0, 0⟩, ⟨1, 0⟩]).length = 3 ∧
    (compute_curve_step (1/2) [⟨0, 0⟩, ⟨1, 0⟩]).length = 3 := by
  have h := C4_sample_counts [⟨0, 0⟩, ⟨1, 0⟩] 2 (1/2) (by simp) (by norm_num)
  refine ⟨h.1, ?_⟩
  have h2 := h.2
  norm_num at h2
  exact h2

/-- Claim C5: with at least 2 control points (and positive resolution), the
first curve sample is the first control point and the last sample is the last
control point, in both variants (for the step-based variant the program step
`CURVE_STEP = 1/10000` divides 1 exactly, so the final sample is at
`t = 1`). -/
theorem C5_endpoints (ps : List Point) (R : Nat)
    (hps : 2 ≤ ps.length) (hR : 1 ≤ R) :
    (computeBezierCurveR R ps).head? = ps.head? ∧
    (computeBezierCurveR R ps).getLast? = ps.getLast? ∧
    (compute_curve ps).head? = ps.head? ∧
    (compute_curve ps).getLast? = ps.getLast? := by
  refine ⟨computeBezierCurveR_head R ps hps,
    computeBezierCurveR_getLast R ps hR hps, ?_,
    compute_curve_getLast ps hps⟩
  rw [compute_curve]
  exact compute_curve_step_head CURVE_STEP ps (by norm_num [CURVE_STEP]) hps

/-- Witness for C5 on the two-point list `[(0,0), (2,3)]` at resolution 1 and
at the program step. -/
theorem C5_witness :
    (computeBezierCurveR 1 [⟨0, 0⟩, ⟨2, 3⟩]).head? = some ⟨0, 0⟩ ∧
    (computeBezierCurveR 1 [⟨0, 0⟩, ⟨2, 3⟩]).getLast? = some ⟨2, 3⟩ ∧
    (compute_curve [⟨0, 0⟩, ⟨2, 3⟩]).head? = some ⟨0, 0⟩ ∧
    (compute_curve [⟨0, 0⟩, ⟨2, 3⟩]).getLast? = some ⟨2, 3⟩ := by
  have h := C5_endpoints [⟨0, 0⟩, ⟨2, 3⟩] 1 (by simp) (le_refl 1)
  obtain ⟨h1, h2, h3, h4⟩ := h
  exact ⟨by rw [h1]; rfl, by rw [h2]; rfl, by rw [h3]; rfl, by rw [h4]; rfl⟩

theorem findIdxAux_zero_some (pred : Point → Bool) (l : List Point) (i : Nat)
    (h : findIdxAux pred l 0 = some i) :
    (∃ p, l.get? i = some p ∧ pred p = true) ∧
    ∀ m < i, ∀ q, l.get? m = some q → pred q = false := by
  obtain ⟨d, hd, hex, hmin⟩ := findIdxAux_some pred l 0 i h
  obtain rfl : d = i := by omega
  exact ⟨hex, hmin⟩

theorem handle_mouse_press_left_moving (st : BezierState) (x y : ℚ)
    (h : st.is_moving = true) :
    handle_mouse_press st x y MouseButton.left = st := by
  rw [handle_mouse_press, if_neg (by simp [h]), if_neg (by simp)]

/-- Claim C6 counterexample: the claim's "squared distance **below**
threshold²" (strict) is wrong for the step-based variant's hit test: a click
at exact distance `POINT_THRESHOLD` (point `(0,0)`, click `(6,8)`, distance
10) is still grabbed by `is_close` (`<=`), although its squared distance is
not below `POINT_THRESHOLD²`. -/
theorem C6_counterexample :
    firstCloseIdx [⟨0, 0⟩] ⟨6, 8⟩ = some 0 ∧
    ¬ dist2 ⟨0, 0⟩ ⟨6, 8⟩ < POINT_THRESHOLD * POINT_THRESHOLD := by
  constructor
  · norm_num [firstCloseIdx, findIdxAux, is_close, dist2, POINT_THRESHOLD]
  · norm_num [dist2, POINT_THRESHOLD]

/-- Claim C6 as amended: both hit tests return the first (lowest-index)
qualifying control point — ties go to list order, not nearness — and a
sentinel when no point qualifies; "qualifying" is strict
(`distance² < threshold²`) in the resolution-based `findPointUnderCursor`
and non-strict (`distance ≤ POINT_THRESHOLD`, i.e.
`distance² ≤ POINT_THRESHOLD²`) in the step-based `is_close` scan. -/
theorem C6_amended_first_hit :
    (∀ ps x y thr, findPointUnderCursor ps x y thr = -1 ↔
      ∀ p ∈ ps, ¬ getPointDistance p x y < thr * thr) ∧
    (∀ ps x y thr, ∀ i : Nat, findPointUnderCursor ps x y thr = (i : Int) →
      (∃ p, ps.get? i = some p ∧ getPointDistance p x y < thr * thr) ∧
      ∀ j < i, ∀ q, ps.get? j = some q →
        ¬ getPointDistance q x y < thr * thr) ∧
    (∀ ps q, firstCloseIdx ps q = none ↔
      ∀ p ∈ ps, ¬ dist2 p q ≤ POINT_THRESHOLD * POINT_THRESHOLD) ∧
    (∀ ps q, ∀ i : Nat, firstCloseIdx ps q = some i →
      (∃ p, ps.get? i = some p ∧
        dist2 p q ≤ POINT_THRESHOLD * POINT_THRESHOLD) ∧
      ∀ j < i, ∀ p2, ps.get? j = some p2 →
        ¬ dist2 p2 q ≤ POINT_THRESHOLD * POINT_THRESHOLD) := by
  refine ⟨?_, ?_, ?_, ?_⟩
  · intro ps x y thr
    rw [findPointUnderCursor]
    rcases hfi : findIdxAux
        (fun p => decide (getPointDistance p x y < thr * thr)) ps 0 with _ | i
    · simp only []
      constructor
      · intro _ p hp
        have := (findIdxAux_none_iff _ ps 0).mp hfi p hp
        simpa using this
      · intro _
        trivial
    · simp only []
      constructor
      · intro hcontra
        omega
      · intro hall
        obtain ⟨⟨p, hp, hpred⟩, _⟩ := findIdxAux_zero_some _ ps i hfi
        have hmem : p ∈ ps := List.get?_mem hp
        have := hall p hmem
        simp only [decide_eq_true_eq] at hpred
        exact absurd hpred this
  · intro ps x y thr i hfind
    rw [findPointUnderCursor] at hfind
    rcases hfi : findIdxAux
        (fun p => decide (getPointDistance p x y < thr * thr)) ps 0 with _ | i2
    · rw [hfi] at hfind
      simp only [] at hfind
      omega
    · rw [hfi] at hfind
      simp only [] at hfind
      obtain rfl : i2 = i := by omega
      obtain ⟨⟨p, hp, hpred⟩, hmin⟩ := findIdxAux_zero_some _ ps i2 hfi
      simp only [decide_eq_true_eq] at hpred
      refine ⟨⟨p, hp, hpred⟩, ?_⟩
      intro j hj q hq
      have := hmin j hj q hq
      simpa using this
  · intro ps q
    rw [firstCloseIdx, findIdxAux_none_iff]
    constructor
    · intro hall p hp
      have := hall p hp
      simpa [is_close] using this
    · intro hall p hp
      have := hall p hp
      simpa [is_close] using this
  · intro ps q i hfi
    rw [firstCloseIdx] at hfi
    obtain ⟨⟨p, hp, hpred⟩, hmin⟩ := findIdxAux_zero_some _ ps i hfi
    simp only [is_close, decide_eq_true_eq] at hpred
    refine ⟨⟨p, hp, hpred⟩, ?_⟩
    intro j hj p2 hp2
    have := hmin j hj p2 hp2
    simpa [is_close] using this

/-- Witness for C6 on concrete lists: two coincident points at `(0,0)` — the
first one (index 0) is returned by both scans, not the (equally near)
second one; and a miss returns the sentinel. -/
theorem C6_witness :
    ((∃ p, ([⟨0, 0⟩, ⟨0, 0⟩] : List Point).get? 0 = some p ∧
        getPointDistance p 0 0 < (3/100) * (3/100)) ∧
      ∀ j < 0, ∀ q, ([⟨0, 0⟩, ⟨0, 0⟩] : List Point).get? j = some q →
        ¬ getPointDistance q 0 0 < (3/100) * (3/100)) ∧
    ((∃ p, ([⟨0, 0⟩, ⟨0, 0⟩] : List Point).get? 0 = some p ∧
        dist2 p ⟨0, 0⟩ ≤ POINT_THRESHOLD * POINT_THRESHOLD) ∧
      ∀ j < 0, ∀ p2, ([⟨0, 0⟩, ⟨0, 0⟩] : List Point).get? j = some p2 →
        ¬ dist2 p2 ⟨0, 0⟩ ≤ POINT_THRESHOLD * POINT_THRESHOLD) ∧
    findPointUnderCursor [⟨0, 0⟩] 5 5 (3/100) = -1 := by
  refine ⟨?_, ?_, ?_⟩
  · exact C6_amended_first_hit.2.1 [⟨0, 0⟩, ⟨0, 0⟩] 0 0 (3/100) 0
      (by norm_num [findPointUnderCursor, findIdxAux, getPointDistance])
  · exact C6_amended_first_hit.2.2.2 [⟨0, 0⟩, ⟨0, 0⟩] ⟨0, 0⟩ 0
      (by norm_num [firstCloseIdx, findIdxAux, is_close, dist2,
        POINT_THRESHOLD])
  · exact (C6_amended_first_hit.1 [⟨0, 0⟩] 5 5 (3/100)).mpr
      (by norm_num [getPointDistance])

/-- Claim C7 counterexample: the step-based variant has no minimum-count
floor.  Add two points (left releases at `(0,0)` and `(100,100)`), then
right-click the second: it is deleted even though the count drops from 2 to
1, so `remove` did not refuse. -/
theorem C7_counterexample :
    (runA initA
      [EventA.releaseLeft 0 0, EventA.releaseLeft 100 100,
       EventA.press 100 100 MouseButton.right]).map
        (fun s => s.control_points) = some [⟨0, 0⟩] := by
  norm_num [runA, stepA, handle_mouse_press, handle_mouse_release, initA,
    firstCloseIdx, findIdxAux, is_close, dist2, POINT_THRESHOLD,
    compute_curve, compute_curve_step]

/-- Claim C7 as amended: only the resolution-based variant refuses a deletion
that would drop the count below 2 (its right-press is a no-op on the list
whenever at most 2 points exist); when more than 2 points exist and a point
is hit, it removes exactly that point, keeping the remaining points in
order; the step-based variant removes the first hit point unconditionally,
with no floor. -/
theorem C7_amended_remove :
    (∀ st : EditorState, ∀ x y : ℚ, st.controlPoints.length ≤ 2 →
      (stepB st (EventB.press x y MouseButton.right)).map
        (fun s => s.controlPoints) = some st.controlPoints) ∧
    (∀ st : EditorState, ∀ x y : ℚ, ∀ i : Nat,
      2 < st.controlPoints.length →
      findPointUnderCursor st.controlPoints (screenToGLCoords x y).x
        (screenToGLCoords x y).y (3 / 100) = (i : Int) →
      (stepB st (EventB.press x y MouseButton.right)).map
        (fun s => s.controlPoints) =
        some (st.controlPoints.take i ++ st.controlPoints.drop (i + 1))) ∧
    (∀ st : BezierState, ∀ x y : ℚ, ∀ i : Nat,
      firstCloseIdx st.control_points ⟨x, y⟩ = some i →
      (handle_mouse_press st x y MouseButton.right).control_points =
        st.control_points.take i ++ st.control_points.drop (i + 1)) := by
  refine ⟨?_, ?_, ?_⟩
  · intro st x y h2
    simp only [stepB]
    rw [if_neg MouseButton.right_ne_left]
    by_cases hemp : st.controlPoints = []
    · rw [if_neg (by simp [hemp])]
      rfl
    · rw [if_pos ⟨by trivial, hemp⟩]
      split
      · rw [if_neg (by omega)]
        rfl
      · rfl
  · intro st x y i h2 hfind
    simp only [stepB]
    rw [if_neg MouseButton.right_ne_left,
      if_pos ⟨by trivial, by intro hemp; rw [hemp] at h2; simp at h2⟩, hfind,
      if_pos (by omega), if_pos h2]
    simp [List.eraseIdx_eq_take_drop_succ]
  · intro st x y i hfi
    rw [handle_mouse_press, if_neg (by simp), if_pos rfl, hfi]
    simp [List.eraseIdx_eq_take_drop_succ]

/-- Witness for C7: a 2-point resolution-based state refuses the deletion; a
1-point step-based state deletes down to the empty list. -/
theorem C7_witness :
    (stepB { controlPoints := [⟨0, 0⟩, ⟨1, 1⟩], curvePoints := [],
             dragging := false, draggedIndex := -1 }
       (EventB.press 400 300 MouseButton.right)).map
        (fun s => s.controlPoints) = some [⟨0, 0⟩, ⟨1, 1⟩] ∧
    (handle_mouse_press
      { control_points := [⟨0, 0⟩], curve_points := [],
        moving_points := [], move_iter := 0, is_moving := false,
        is_deleting := false } 0 0 MouseButton.right).control_points = [] := by
  constructor
  · exact C7_amended_remove.1 _ 400 300 (by simp)
  · have h := C7_amended_remove.2.2
      { control_points := [⟨0, 0⟩], curve_points := [], moving_points := [],
        move_iter := 0, is_moving := false, is_deleting := false } 0 0 0
      (by norm_num [firstCloseIdx, findIdxAux, is_close, dist2,
        POINT_THRESHOLD])
    simpa using h

/-- Claim C8 counterexample: in the resolution-based variant the list entry
at the dragged index IS overwritten during the drag, before any release:
press on the seeded first point (device `(80,540)`, GL `(-0.8,-0.8)`), then
move to device `(400,300)` (GL `(0,0)`) — with the drag still active, the
first control point has already changed to `(0,0)`. -/
theorem C8_counterexample :
    (runB initB [EventB.press 80 540 MouseButton.left,
      EventB.move 400 300]).map
        (fun s => (s.dragging, s.controlPoints.head?)) =
      some (true, some ⟨0, 0⟩) ∧
    initB.controlPoints.head? = some ⟨-4/5, -4/5⟩ := by
  constructor
  · norm_num [runB, stepB, initB, seedPoints, screenToGLCoords,
      findPointUnderCursor, findIdxAux, getPointDistance,
      WINDOW_WIDTH, WINDOW_HEIGHT]
  · norm_num [initB, seedPoints]

/-- Claim C8 as amended: in the step-based variant the dragged entry is
never written during the drag — cursor moves leave the control points
unchanged (a left press while moving is a complete no-op) — and the dragged
position is committed to the list only by the left release; in the
resolution-based variant every move during a drag live-writes the list entry
at the dragged index instead. -/
theorem C8_amended_drag_commit :
    (∀ st : BezierState, ∀ x y : ℚ, ∀ held : Bool,
      (stepA st (EventA.move x y held)).map (fun s => s.control_points) =
        some st.control_points) ∧
    (∀ st : BezierState, ∀ x y : ℚ, st.is_moving = true →
      handle_mouse_press st x y MouseButton.left = st) ∧
    (∀ st : BezierState, ∀ x y : ℚ, st.is_moving = true →
      st.move_iter < st.control_points.length →
      (handle_mouse_release st x y MouseButton.left).map
        (fun s => s.control_points) =
        some (st.control_points.set st.move_iter ⟨x, y⟩)) ∧
    (∀ st : EditorState, ∀ x y : ℚ, st.dragging = true →
      st.draggedIndex ≠ -1 → 0 ≤ st.draggedIndex →
      st.draggedIndex.toNat < st.controlPoints.length →
      (stepB st (EventB.move x y)).map (fun s => s.controlPoints) =
        some (st.controlPoints.set st.draggedIndex.toNat
          (screenToGLCoords x y))) := by
  refine ⟨?_, ?_, ?_, ?_⟩
  · intro st x y held
    rw [stepA]
    split
    · next hcond =>
        rw [handle_mouse_press_left_moving st x y hcond.2]
        rfl
    · rfl
  · intro st x y h
    exact handle_mouse_press_left_moving st x y h
  · intro st x y hmov hlt
    rw [handle_mouse_release, if_pos rfl, if_pos hmov, if_pos hlt]
    rfl
  · intro st x y hdrag hne h0 hlen
    simp only [stepB]
    rw [if_pos ⟨hdrag, hne⟩, if_pos ⟨h0, hlen⟩]
    rfl

/-- Witness for C8 on concrete dragging states: a left press and a release
while moving, plus a live-updating move of the resolution-based variant
(device `(600,150)` converts to GL `(1/2,1/2)`). -/
theorem C8_witness :
    handle_mouse_press
      { control_points := [⟨0, 0⟩], curve_points := [],
        moving_points := [⟨0, 0⟩], move_iter := 0, is_moving := true,
        is_deleting := false } 7 7 MouseButton.left =
      { control_points := [⟨0, 0⟩], curve_points := [],
        moving_points := [⟨0, 0⟩], move_iter := 0, is_moving := true,
        is_deleting := false } ∧
    (handle_mouse_release
      { control_points := [⟨0, 0⟩], curve_points := [],
        moving_points := [⟨0, 0⟩], move_iter := 0, is_moving := true,
        is_deleting := false } 5 6 MouseButton.left).map
      (fun s => s.control_points) = some [⟨5, 6⟩] ∧
    (stepB
      { controlPoints := [⟨0, 0⟩], curvePoints := [], dragging := true,
        draggedIndex := 0 } (EventB.move 600 150)).map
      (fun s => s.controlPoints) = some [⟨1/2, 1/2⟩] := by
  refine ⟨?_, ?_, ?_⟩
  · exact C8_amended_drag_commit.2.1 _ 7 7 rfl
  · have h := C8_amended_drag_commit.2.2.1
      { control_points := [⟨0, 0⟩], curve_points := [],
        moving_points := [⟨0, 0⟩], move_iter := 0, is_moving := true,
        is_deleting := false } 5 6 rfl (by simp)
    simpa using h
  · have h := C8_amended_drag_commit.2.2.2
      { controlPoints := [⟨0, 0⟩], curvePoints := [], dragging := true,
        draggedIndex := 0 } 600 150 rfl (by simp) (by simp) (by simp)
    rw [h]
    norm_num [screenToGLCoords, WINDOW_WIDTH, WINDOW_HEIGHT]

/-- Claim C9 (code bug): in the step-based variant move events do NOT update
the tracked candidate drag position.  Add a point at `(0,0)`, grab it, then
move to `(50,50)` with the left button held: the cursor callback forwards
the move to `handle_mouse_press(..., LEFT)`, whose `!is_moving` guard makes
it a no-op, so `moving_points` (whose back is the rendered candidate) still
holds only the original press position `(0,0)`, not `(50,50)`. -/
theorem C9_candidate_not_updated :
    (runA initA [EventA.releaseLeft 0 0, EventA.press 0 0 MouseButton.left,
      EventA.move 50 50 true]).map
        (fun s => (s.is_moving, s.moving_points)) =
      some (true, [⟨0, 0⟩]) := by
  norm_num [runA, stepA, handle_mouse_press, handle_mouse_release, initA,
    firstCloseIdx, findIdxAux, is_close, dist2, POINT_THRESHOLD,
    compute_curve, compute_curve_step]

/-- Claim C10: in the resolution-based variant, a release of ANY mouse
button ends any active drag: afterwards `dragging` is `false` and
`draggedIndex` is `-1`, and the control points (hence no committed position)
are untouched. -/
theorem C10_any_release_ends_drag (st : EditorState) (b : MouseButton) :
    stepB st (EventB.release b) =
      some { st with dragging := false, draggedIndex := -1 } := rfl

/-- Witness for C10: releasing the right button cancels an in-progress drag
of point 0 without touching the control points. -/
theorem C10_witness :
    stepB
      { controlPoints := [⟨0, 0⟩], curvePoints := [], dragging := true,
        draggedIndex := 0 } (EventB.release MouseButton.right) =
      some { controlPoints := [⟨0, 0⟩], curvePoints := [], dragging := false,
             draggedIndex := -1 } :=
  C10_any_release_ends_drag
    { controlPoints := [⟨0, 0⟩], curvePoints := [], dragging := true,
      draggedIndex := 0 } MouseButton.right
